import Mathlib

/-!
Verification of the frequency-table builder and chord resolver of
`plot_musical_notes.py` (repository `music_plots`).

Frequencies are modelled exactly, in units of `10⁻⁴` Hz: every base-frequency
literal of the source has at most four decimal places (`8.1758` becomes the
integer `81758`), and every other frequency the program manipulates is a base
frequency times a power of two, so the whole table lives in `ℤ` under this
scaling.  The scaling is a similarity: it preserves equality, ordering,
octave doubling, and all frequency ratios, which is everything the statements
below concern (the one ratio statement is phrased over `ℝ` and divides the
scaling back out).  It also matches the Python floats faithfully: doubling is
exact in binary floating point, the program's equality scan only ever
compares a float against the very float object stored in the table, and all
order comparisons are between frequencies whose relative gaps are at least
`10⁻³`, far above double rounding error.

The Python `dict` built by `dict(zip(note_names, all_notes))` is modelled as
the association list `List.zip note_names all_notes` with first-match lookup;
the note names are proved pairwise distinct, so first-match lookup agrees
with Python dict semantics.  A Python `KeyError` / `IndexError` escaping
`calc_chord_freqs` is modelled by the `Except` monad with the two error
values named by the specification.
-/

namespace MusicPlots

set_option maxRecDepth 100000

/-- Errors of the chord resolver: `unknownRoot` models the Python `KeyError`
raised by `notes_dict[root_note]`, `intervalOutOfRange` models the
`IndexError` raised by `all_notes[pos + interval]`. -/
inductive ChordError : Type
  | unknownRoot : ChordError
  | intervalOutOfRange : ChordError
deriving DecidableEq

/-- `calc_octave(input_pitch, num_octaves) = input_pitch * 2**num_octaves`
(source lines 362-364); exact for the program's inputs, in floats as in `ℤ`. -/
def calcOctave (input_pitch : ℤ) (num_octaves : ℕ) : ℤ :=
  input_pitch * 2 ^ num_octaves

/-- `calc_all_notes(input_scale)` (source lines 366-371): for each
`i in range(0, len(input_scale))`, for each `note in input_scale`, append
`calc_octave(note, i)`.  The nested append loops are the flattening of the
per-octave blocks. -/
def calcAllNotes (input_scale : List ℤ) : List ℤ :=
  ((List.range input_scale.length).map
    (fun i => input_scale.map (fun note => calcOctave note i))).flatten

/-- `combine_prefix_suffix(prefixes, suffixes, order)` (source lines 345-359):
starts from an empty list, appends `pre+suff` for all suffixes outer /
prefixes inner when `order == 'prefixes_first'`, then appends `pre+suff` for
all prefixes outer / suffixes inner when `order == 'suffixes_first'`. -/
def combinePrefixSuffix (prefixes suffixes : List String) (order : String) :
    List String :=
  (if order = "prefixes_first" then
    suffixes.flatMap (fun suff => prefixes.map (fun pre => pre ++ suff))
  else []) ++
  (if order = "suffixes_first" then
    prefixes.flatMap (fun pre => suffixes.map (fun suff => pre ++ suff))
  else [])

/-- First-match lookup in an association list; models `notes_dict[root_note]`
returning `none` where Python raises `KeyError`.  The concrete key list is
proved `Nodup`, so first-match agrees with Python dict semantics. -/
def lookupName (key : String) : List (String × ℤ) → Option ℤ
  | [] => none
  | (n, f) :: rest => if n = key then some f else lookupName key rest

/-- The linear scan of `calc_chord_freqs` (source lines 324-328):
`pos = 0; for i in all_notes: if i == root_note_freq: break; pos += 1`.
Returns the index of the first element equal to `target`, or the length of
the list when no element matches. -/
def findPos (target : ℤ) : List ℤ → ℕ
  | [] => 0
  | x :: xs => if x = target then 0 else findPos target xs + 1

/-- `all_notes[pos + interval]` (source line 338): returns the element, or
the `IndexError` model when the index is out of range (the intervals of this
program are non-negative, so no Python negative-index wraparound arises). -/
def getNote (all_notes : List ℤ) (i : ℕ) : Except ChordError ℤ :=
  match all_notes[i]? with
  | some v => Except.ok v
  | none => Except.error ChordError.intervalOutOfRange

/-- A Python `for`-loop that appends `f x` for each `x`, with an uncaught
exception aborting the whole loop: effectful map over `Except`. -/
def exceptMapList (f : α → Except ChordError β) : List α → Except ChordError (List β)
  | [] => Except.ok []
  | x :: xs =>
    match f x with
    | Except.error e => Except.error e
    | Except.ok b =>
      match exceptMapList f xs with
      | Except.error e => Except.error e
      | Except.ok bs => Except.ok (b :: bs)

/-- `calc_chord_freqs(chord_names, chord_intervals, root_note, notes_dict,
all_notes)` (source lines 317-342).  The `chord_names` parameter is unused by
the Python function and omitted.  Looks up the root's frequency in the dict
(`KeyError` → `unknownRoot`), scans `all_notes` for the first equal frequency
to obtain `pos`, then for each chord interval list collects
`all_notes[pos + interval]` (`IndexError` → `intervalOutOfRange`). -/
def calcChordFreqsE (chord_intervals : List (List ℕ)) (root_note : String)
    (notes_dict : List (String × ℤ)) (all_notes : List ℤ) :
    Except ChordError (List (List ℤ)) :=
  match lookupName root_note notes_dict with
  | none => Except.error ChordError.unknownRoot
  | some root_note_freq =>
    let pos := findPos root_note_freq all_notes
    exceptMapList
      (fun chord => exceptMapList (fun interval => getNote all_notes (pos + interval)) chord)
      chord_intervals

/-- The batch resolution loop of `chords` (source lines 288-296), generalised
over the root list: `for root_note in middle_c_chromatic:
temp_chord_frequencies.append(calc_chord_freqs(...))` followed by the
flattening loop that appends every inner chord list in order. -/
def resolveAllChords (roots : List String) (chord_intervals : List (List ℕ))
    (notes_dict : List (String × ℤ)) (all_notes : List ℤ) :
    Except ChordError (List (List ℤ)) :=
  (exceptMapList (fun r => calcChordFreqsE chord_intervals r notes_dict all_notes) roots).map
    List.flatten

/-! ### Concrete data of `chords` (source lines 187-313) -/

/-- `note_name_prefixes` (source line 190). -/
def noteNamePrefixes : List String :=
  ["C", "Cs", "D", "Ds", "E", "F", "Fs", "G", "Gs", "A", "As", "B"]

/-- `note_name_suffixes` (source line 191): 11 octave suffixes. -/
def noteNameSuffixes : List String :=
  ["-1", "0", "1", "2", "3", "4", "5", "6", "7", "8", "9"]

/-- `note_names` (source line 193). -/
def noteNames : List String :=
  combinePrefixSuffix noteNamePrefixes noteNameSuffixes "prefixes_first"

/-- `cf_1` (source line 207): fundamental frequencies of the `-1` octave,
`[8.1758, 8.6620, 9.1770, 9.7227, 10.301, 10.914, 11.563, 12.250, 12.979,
13.750, 14.568, 15.434]` Hz, exactly scaled to units of `10⁻⁴` Hz. -/
def cf1 : List ℤ :=
  [81758, 86620, 91770, 97227, 103010, 109140, 115630, 122500,
   129790, 137500, 145680, 154340]

/-- `all_notes` (source line 210). -/
def allNotes : List ℤ := calcAllNotes cf1

/-- `notes_dict` (source line 212): `dict(zip(note_names, all_notes))`;
`zip` truncates to the shorter list. -/
def notesDict : List (String × ℤ) := noteNames.zip allNotes

/-- `chord_name_prefixes` (source line 213). -/
def chordNamePrefixes : List String :=
  ["C", "Cs", "D", "Ds", "E", "F", "Fs", "G", "Gs", "A", "As", "B"]

/-- `chord_name_suffixes` (source lines 214-216): 25 chord-type suffixes. -/
def chordNameSuffixes : List String :=
  [" ", "m", "7", "m7", "maj7", "6", "m6", "6/9", "5", "9", "m9", "maj9",
   "11", "m11", "13", "m13", "add9", "add2", "7-5", "7+5", "sus4", "sus2",
   "dim", "m7b5", "aug"]

/-- `c_chord_name_prefixes` (source line 217). -/
def cChordNamePrefixes : List String := ["C"]

/-- `chord_names` (source line 219). -/
def chordNames : List String :=
  combinePrefixSuffix chordNamePrefixes chordNameSuffixes "suffixes_first"

/-- `c_chord_names` (source line 221). -/
def cChordNames : List String :=
  combinePrefixSuffix cChordNamePrefixes chordNameSuffixes "suffixes_first"

/-- `chord_intervals = [i0, ..., i24]` (source lines 248-274), with the
named semitone constants of lines 227-245 substituted in. -/
def chordIntervals : List (List ℕ) :=
  [[0, 4, 7],                     -- i0  C
   [0, 3, 7],                     -- i1  Cm
   [0, 4, 7, 10],                 -- i2  C7
   [0, 3, 7, 10],                 -- i3  Cm7
   [0, 4, 7, 11],                 -- i4  Cmaj7
   [0, 4, 7, 9],                  -- i5  C6
   [0, 3, 7, 9],                  -- i6  Cm6
   [0, 4, 7, 9, 14],              -- i7  C6/9
   [0, 7],                        -- i8  C5
   [0, 4, 7, 10, 14],             -- i9  C9
   [0, 3, 7, 10, 14],             -- i10 Cm9
   [0, 4, 7, 11, 14],             -- i11 Cmaj9
   [0, 4, 7, 10, 14, 17],         -- i12 C11
   [0, 3, 7, 10, 14, 17],         -- i13 Cm11
   [0, 4, 7, 10, 14, 17, 21],     -- i14 C13
   [0, 3, 7, 10, 14, 17, 21],     -- i15 Cm13
   [0, 4, 7, 14],                 -- i16 Cadd9
   [0, 2, 4, 7],                  -- i17 Cadd2
   [0, 4, 6, 10],                 -- i18 C7-5
   [0, 4, 8, 10],                 -- i19 C7+5
   [0, 5, 7],                     -- i20 Csus4
   [0, 2, 7],                     -- i21 Csus2
   [0, 3, 6],                     -- i22 Cdim
   [0, 3, 6, 10],                 -- i23 Cm7b5
   [0, 4, 8]]                     -- i24 Caug

/-- `middle_c_chromatic` (source line 276). -/
def middleCChromatic : List String :=
  ["C4", "Cs4", "D4", "Ds4", "E4", "F4", "Fs4", "G4", "Gs4", "A5", "As5", "B5"]

/-- `c_chord_frequencies` (source line 281). -/
def cChordFrequenciesE : Except ChordError (List (List ℤ)) :=
  calcChordFreqsE chordIntervals "C4" notesDict allNotes

/-- `temp_chord_frequencies` after the loop over `middle_c_chromatic`
(source lines 288-289). -/
def tempChordFrequenciesE : Except ChordError (List (List (List ℤ))) :=
  exceptMapList (fun r => calcChordFreqsE chordIntervals r notesDict allNotes)
    middleCChromatic

/-- The function `chords(range)` (source lines 187-313): computes the two
chord dictionaries and returns the C-rooted one for `'c'`, the full one for
`'all'`, and falls through both `if` statements (Python `None`) otherwise.
A `KeyError`/`IndexError` raised inside would propagate out, hence the
`Except` wrapper; `none` models the implicit `None` fall-through. -/
def chords (rng : String) : Except ChordError (Option (List (String × List ℤ))) :=
  cChordFrequenciesE.bind (fun c_chord_frequencies =>
    tempChordFrequenciesE.bind (fun temp_chord_frequencies =>
      let chord_frequencies := temp_chord_frequencies.flatten
      let c_chord_dict := cChordNames.zip c_chord_frequencies
      let chord_dict := chordNames.zip chord_frequencies
      Except.ok
        (if rng = "c" then some c_chord_dict
         else if rng = "all" then some chord_dict
         else none)))

/-! ### Helper lemmas -/

/-- Unfolding of `getNote` by a bounds check. -/
lemma getNote_eq (l : List ℤ) (i : ℕ) :
    getNote l i =
      if _h : i < l.length then Except.ok (l.getD i 0)
      else Except.error ChordError.intervalOutOfRange := by
  unfold getNote
  by_cases h : i < l.length
  · rw [dif_pos h, List.getElem?_eq_getElem h, List.getD_eq_getElem l 0 h]
  · rw [dif_neg h, List.getElem?_eq_none (by omega)]

/-- The inner interval loop of `calc_chord_freqs`: succeeds with the indexed
frequencies exactly when every interval stays in bounds, and raises the
`IndexError` model otherwise. -/
lemma exceptMapList_getNote (l : List ℤ) (pos : ℕ) (ks : List ℕ) :
    exceptMapList (fun k => getNote l (pos + k)) ks =
      if ∀ k ∈ ks, pos + k < l.length
      then Except.ok (ks.map (fun k => l.getD (pos + k) 0))
      else Except.error ChordError.intervalOutOfRange := by
  induction ks with
  | nil => simp [exceptMapList]
  | cons k ks ih =>
    simp only [exceptMapList]
    rw [ih, getNote_eq]
    by_cases hk : pos + k < l.length
    · rw [dif_pos hk]
      by_cases hks : ∀ k' ∈ ks, pos + k' < l.length
      · have hcons : ∀ k' ∈ k :: ks, pos + k' < l.length :=
          List.forall_mem_cons.mpr ⟨hk, hks⟩
        rw [if_pos hks, if_pos hcons]
        simp
      · have hcons : ¬∀ k' ∈ k :: ks, pos + k' < l.length :=
          fun hall => hks (List.forall_mem_cons.mp hall).2
        rw [if_neg hks, if_neg hcons]
    · have hcons : ¬∀ k' ∈ k :: ks, pos + k' < l.length :=
        fun hall => hk (List.forall_mem_cons.mp hall).1
      rw [dif_neg hk, if_neg hcons]

/-- The chord loop of `calc_chord_freqs`: succeeds exactly when every
interval of every chord stays in bounds. -/
lemma exceptMapList_chords (notes : List ℤ) (pos : ℕ) (cis : List (List ℕ)) :
    exceptMapList
        (fun chord => exceptMapList (fun interval => getNote notes (pos + interval)) chord)
        cis =
      if ∀ c ∈ cis, ∀ k ∈ c, pos + k < notes.length
      then Except.ok (cis.map (fun c => c.map (fun k => notes.getD (pos + k) 0)))
      else Except.error ChordError.intervalOutOfRange := by
  induction cis with
  | nil => simp [exceptMapList]
  | cons c cs ih =>
    simp only [exceptMapList]
    rw [ih, exceptMapList_getNote]
    by_cases hc : ∀ k ∈ c, pos + k < notes.length
    · rw [if_pos hc]
      by_cases hcs : ∀ c' ∈ cs, ∀ k ∈ c', pos + k < notes.length
      · have hcons : ∀ c' ∈ c :: cs, ∀ k ∈ c', pos + k < notes.length :=
          List.forall_mem_cons.mpr ⟨hc, hcs⟩
        rw [if_pos hcs, if_pos hcons]
        simp
      · have hcons : ¬∀ c' ∈ c :: cs, ∀ k ∈ c', pos + k < notes.length :=
          fun hall => hcs (List.forall_mem_cons.mp hall).2
        rw [if_neg hcs, if_neg hcons]
    · have hcons : ¬∀ c' ∈ c :: cs, ∀ k ∈ c', pos + k < notes.length :=
        fun hall => hc (List.forall_mem_cons.mp hall).1
      rw [if_neg hc, if_neg hcons]

/-- Full characterisation of `calc_chord_freqs`: `KeyError`/`unknownRoot` on
an absent root, `IndexError`/`intervalOutOfRange` when an interval leaves the
table, and otherwise the positionally indexed frequencies. -/
lemma calcChordFreqsE_char (cis : List (List ℕ)) (rt : String)
    (dict : List (String × ℤ)) (notes : List ℤ) :
    calcChordFreqsE cis rt dict notes =
      match lookupName rt dict with
      | none => Except.error ChordError.unknownRoot
      | some f =>
        if ∀ c ∈ cis, ∀ k ∈ c, findPos f notes + k < notes.length
        then Except.ok
          (cis.map (fun c => c.map (fun k => notes.getD (findPos f notes + k) 0)))
        else Except.error ChordError.intervalOutOfRange := by
  unfold calcChordFreqsE
  cases lookupName rt dict with
  | none => rfl
  | some f => exact exceptMapList_chords notes (findPos f notes) cis

/-- A list element taken with a default at an in-range index is a member. -/
lemma getD_mem {α : Type} (l : List α) (j : ℕ) (d : α) (h : j < l.length) :
    l.getD j d ∈ l := by
  rw [List.getD_eq_getElem l d h]
  exact List.getElem_mem h

/-- First-match association-list lookup over a `zip` with distinct keys
returns the value at the key's index. -/
lemma lookupName_zip (names : List String) (vals : List ℤ) (j : ℕ)
    (hn : names.Nodup) (hj : j < names.length) (hv : j < vals.length) :
    lookupName (names.getD j "") (names.zip vals) = some (vals.getD j 0) := by
  induction names generalizing vals j with
  | nil => simp at hj
  | cons n ns ih =>
    cases vals with
    | nil => simp at hv
    | cons v vs =>
      cases j with
      | zero => simp [lookupName]
      | succ j =>
        have hmem : ns.getD j "" ∈ ns :=
          getD_mem ns j "" (by simpa using hj)
        have hne : n ≠ ns.getD j "" := by
          intro e
          rw [e] at hn
          exact (List.nodup_cons.mp hn).1 hmem
        simp only [List.zip_cons_cons, List.getD_cons_succ, lookupName,
          if_neg hne]
        exact ih vs j (List.nodup_cons.mp hn).2 (by simpa using hj)
          (by simpa using hv)

/-- The scan of `calc_chord_freqs`, run on the value stored at index `j` of a
strictly increasing table, recovers exactly `j`. -/
lemma findPos_getD (l : List ℤ) (hl : l.Pairwise (· < ·)) (j : ℕ)
    (hj : j < l.length) :
    findPos (l.getD j 0) l = j := by
  induction l generalizing j with
  | nil => simp at hj
  | cons x xs ih =>
    cases j with
    | zero => simp [findPos]
    | succ j =>
      have hmem : xs.getD j 0 ∈ xs := getD_mem xs j 0 (by simpa using hj)
      have hlt : x < xs.getD j 0 := (List.pairwise_cons.mp hl).1 _ hmem
      simp only [List.getD_cons_succ, findPos, if_neg (ne_of_lt hlt)]
      rw [ih (List.pairwise_cons.mp hl).2 j (by simpa using hj)]

/-- An `Except` value whose `isOk` is `true` is an `ok`. -/
lemma isOk_exists {α : Type} (e : Except ChordError α) (h : e.isOk = true) :
    ∃ v, e = Except.ok v := by
  cases e with
  | ok v => exact ⟨v, rfl⟩
  | error _ => simp [Except.isOk, Except.toBool] at h

/-- `exceptMapList` of a pointwise-`ok` function is `ok` of the map. -/
lemma exceptMapList_ok_of {α β : Type} (l : List α) (g : α → Except ChordError β)
    (w : α → β) (h : ∀ x ∈ l, g x = Except.ok (w x)) :
    exceptMapList g l = Except.ok (l.map w) := by
  induction l with
  | nil => simp [exceptMapList]
  | cons x xs ih =>
    rw [exceptMapList, h x (by simp), ih (fun y hy => h y (by simp [hy]))]
    simp

/-- Indexing into the flattening of equal-length blocks. -/
lemma flatten_getElem? {α : Type} (L : List (List α)) (m : ℕ)
    (hm : ∀ l ∈ L, l.length = m) (i j : ℕ) (hi : i < L.length) (hj : j < m) :
    L.flatten[i * m + j]? = (L.getD i [])[j]? := by
  induction L generalizing i with
  | nil => simp at hi
  | cons x xs ih =>
    have hx : x.length = m := hm x (by simp)
    cases i with
    | zero =>
      rw [List.flatten_cons, List.getElem?_append_left (by omega)]
      simp
    | succ i =>
      rw [List.flatten_cons,
        List.getElem?_append_right (by rw [hx, Nat.succ_mul]; omega :
          x.length ≤ (i + 1) * m + j)]
      have harith : (i + 1) * m + j - x.length = i * m + j := by
        rw [hx, Nat.succ_mul]; omega
      rw [harith, ih (fun l hl => hm l (by simp [hl])) i (by simpa using hi)]
      simp

/-- Length of the flattening of equal-length blocks. -/
lemma flatten_length_const {α : Type} (L : List (List α)) (m : ℕ)
    (hm : ∀ l ∈ L, l.length = m) :
    L.flatten.length = L.length * m := by
  induction L with
  | nil => simp
  | cons x xs ih =>
    rw [List.flatten_cons, List.length_append, hm x (by simp),
      ih (fun l hl => hm l (by simp [hl]))]
    simp [Nat.succ_mul]
    omega

/-- Entry `i * |suffixes| + j` of `combine_prefix_suffix(_, _, 'suffixes_first')`
is `prefixes[i] ++ suffixes[j]`. -/
lemma combine_suffixesFirst_getElem? (ps ss : List String) (i j : ℕ)
    (hi : i < ps.length) (hj : j < ss.length) :
    (combinePrefixSuffix ps ss "suffixes_first")[i * ss.length + j]? =
      some (ps.getD i "" ++ ss.getD j "") := by
  unfold combinePrefixSuffix
  rw [if_neg (by decide), if_pos rfl, List.nil_append]
  rw [List.flatMap_def]
  rw [flatten_getElem? (ps.map (fun pre => ss.map (fun suff => pre ++ suff))) ss.length
    (by intro l hl; obtain ⟨pre, _, rfl⟩ := List.mem_map.mp hl; simp)
    i j (by simpa using hi) hj]
  rw [List.getD_eq_getElem (ps.map (fun pre => ss.map (fun suff => pre ++ suff))) []
    (by simpa using hi)]
  rw [List.getElem_map]
  rw [List.getElem?_map]
  rw [List.getElem?_eq_getElem hj]
  rw [List.getD_eq_getElem ps "" hi, List.getD_eq_getElem ss "" hj]
  rfl

/-- Entry `i * |input| + p` of `calc_all_notes(input)` is
`input[p] * 2 ^ i`. -/
lemma calcAllNotes_getElem? (s : List ℤ) (i p : ℕ) (hi : i < s.length)
    (hp : p < s.length) :
    (calcAllNotes s)[i * s.length + p]? = some (s.getD p 0 * 2 ^ i) := by
  unfold calcAllNotes
  rw [flatten_getElem? ((List.range s.length).map
      (fun i => s.map (fun note => calcOctave note i))) s.length
    (by intro l hl; obtain ⟨o, _, rfl⟩ := List.mem_map.mp hl; simp)
    i p (by simpa using hi) hp]
  rw [List.getD_eq_getElem ((List.range s.length).map
      (fun i => s.map (fun note => calcOctave note i))) []
    (by simpa using hi)]
  rw [List.getElem_map, List.getElem_range]
  rw [List.getElem?_map, List.getElem?_eq_getElem hp]
  rw [List.getD_eq_getElem s 0 hp]
  rfl

/-- `calc_all_notes` always yields `|input|²` entries, one per
(octave, position) pair, with no validation of its input. -/
lemma calcAllNotes_length (s : List ℤ) :
    (calcAllNotes s).length = s.length * s.length := by
  unfold calcAllNotes
  rw [flatten_length_const ((List.range s.length).map
      (fun i => s.map (fun note => calcOctave note i))) s.length
    (by intro l hl; obtain ⟨o, _, rfl⟩ := List.mem_map.mp hl; simp)]
  simp

/-- The 132 generated note names are pairwise distinct. -/
lemma noteNames_nodup : noteNames.Nodup := by decide

/-- The concrete table is strictly increasing position by position. -/
lemma allNotes_pairwise : allNotes.Pairwise (· < ·) := by decide

/-- The name list has 132 entries. -/
lemma noteNames_length : noteNames.length = 132 := by decide

/-- The frequency table has 144 entries. -/
lemma allNotes_length : allNotes.length = 144 := by decide

/-- Every table entry is positive. -/
lemma allNotes_entries_pos : ∀ j : Fin 144, 0 < allNotes.getD (j : ℕ) 0 := by
  decide

/-- Exact integer bounds for every within-octave semitone step of the table:
the 12th powers of the cross-multiplied step ratios lie between
`2 * 0.9999¹²` and `2 * 1.0001¹²`. -/
lemma allNotes_step_bounds :
    ∀ (i : Fin 12) (p : Fin 11),
      2 * (9999 * allNotes.getD (12 * (i : ℕ) + (p : ℕ)) 0) ^ 12 ≤
          (10000 * allNotes.getD (12 * (i : ℕ) + (p : ℕ) + 1) 0) ^ 12 ∧
        (10000 * allNotes.getD (12 * (i : ℕ) + (p : ℕ) + 1) 0) ^ 12 ≤
          2 * (10001 * allNotes.getD (12 * (i : ℕ) + (p : ℕ)) 0) ^ 12 := by
  decide

/-- Bridge from exact integer 12th-power bounds to the real statement that
`bn / b` equals `2 ^ (1/12)` within a relative tolerance of `10⁻⁴`. -/
lemma step_close_to_semitone (b bn : ℤ) (hb : 0 < b) (hbn : 0 < bn)
    (h1 : 2 * (9999 * b) ^ 12 ≤ (10000 * bn) ^ 12)
    (h2 : (10000 * bn) ^ 12 ≤ 2 * (10001 * b) ^ 12) :
    |(bn : ℝ) / (b : ℝ) - (2 : ℝ) ^ (12 : ℝ)⁻¹| ≤
      1 / 10000 * (2 : ℝ) ^ (12 : ℝ)⁻¹ := by
  have t0 : (0 : ℝ) < (2 : ℝ) ^ (12 : ℝ)⁻¹ :=
    Real.rpow_pos_of_pos (by norm_num) _
  have t12 : ((2 : ℝ) ^ (12 : ℝ)⁻¹) ^ (12 : ℕ) = 2 := by
    rw [← Real.rpow_natCast ((2 : ℝ) ^ (12 : ℝ)⁻¹) 12,
      ← Real.rpow_mul (by norm_num : (0 : ℝ) ≤ 2)]
    norm_num
  have hbR : (0 : ℝ) < (b : ℝ) := by exact_mod_cast hb
  have hbnR : (0 : ℝ) < (bn : ℝ) := by exact_mod_cast hbn
  have h1R : 2 * (9999 ^ 12 * (b : ℝ) ^ 12) ≤ 10000 ^ 12 * (bn : ℝ) ^ 12 := by
    have : (2 : ℝ) * (9999 * (b : ℝ)) ^ 12 ≤ (10000 * (bn : ℝ)) ^ 12 := by
      exact_mod_cast h1
    rw [mul_pow, mul_pow] at this
    exact this
  have h2R : 10000 ^ 12 * (bn : ℝ) ^ 12 ≤ 2 * (10001 ^ 12 * (b : ℝ) ^ 12) := by
    have : ((10000 : ℝ) * (bn : ℝ)) ^ 12 ≤ 2 * (10001 * (b : ℝ)) ^ 12 := by
      exact_mod_cast h2
    rw [mul_pow, mul_pow] at this
    exact this
  have key1 : ((1 - 1 / 10000) * ((2 : ℝ) ^ (12 : ℝ)⁻¹)) ^ (12 : ℕ) ≤
      ((bn : ℝ) / (b : ℝ)) ^ (12 : ℕ) := by
    rw [mul_pow, t12, div_pow, le_div_iff₀ (by positivity)]
    nlinarith [h1R, pow_pos hbR 12]
  have key2 : ((bn : ℝ) / (b : ℝ)) ^ (12 : ℕ) ≤
      ((1 + 1 / 10000) * ((2 : ℝ) ^ (12 : ℝ)⁻¹)) ^ (12 : ℕ) := by
    rw [mul_pow, t12, div_pow, div_le_iff₀ (by positivity)]
    nlinarith [h2R, pow_pos hbR 12]
  have lower : (1 - 1 / 10000) * ((2 : ℝ) ^ (12 : ℝ)⁻¹) ≤ (bn : ℝ) / (b : ℝ) :=
    le_of_pow_le_pow_left₀ (by norm_num) (le_of_lt (div_pos hbnR hbR)) key1
  have upper : (bn : ℝ) / (b : ℝ) ≤ (1 + 1 / 10000) * ((2 : ℝ) ^ (12 : ℝ)⁻¹) :=
    le_of_pow_le_pow_left₀ (by norm_num) (by positivity) key2
  rw [abs_le]
  constructor
  · nlinarith [t0]
  · nlinarith [t0]

/-! ### Claim theorems -/

/-- C2: `calc_all_notes`, given the program's 12 base frequencies, emits for
each octave index `i` in `[0, 12)` and each of the 12 base frequencies `f`,
taken in the fixed pitch-class order C, C#, D, D#, E, F, F#, G, G#, A, A#, B
of `cf1`, one entry with frequency `f * 2 ^ i` at position `i * 12 + p`:
pitch classes in `cf1` order within an octave, octaves in increasing order. -/
theorem calc_all_notes_octave_blocks :
    allNotes.length = 144 ∧
      ∀ (i p : Fin 12),
        allNotes.getD ((i : ℕ) * 12 + (p : ℕ)) 0 =
          cf1.getD (p : ℕ) 0 * 2 ^ (i : ℕ) := by
  decide

/-- C3: the frequency table generated from the program's 12 base frequencies
is strictly increasing when iterated in the (octave, pitch-class) generation
order, every adjacent pair — octave boundaries included. -/
theorem all_notes_strictly_increasing : List.Chain' (· < ·) allNotes :=
  List.chain'_iff_pairwise.mpr allNotes_pairwise

/-- C4: in the generated table, for every valid octave index `i` and pitch
class `p`, the entry at index `(i + 1) * 12 + p` is exactly twice the entry
at index `i * 12 + p` (octave doubling). -/
theorem all_notes_octave_doubling :
    ∀ (i : Fin 11) (p : Fin 12),
      allNotes.getD (((i : ℕ) + 1) * 12 + (p : ℕ)) 0 =
        2 * allNotes.getD ((i : ℕ) * 12 + (p : ℕ)) 0 := by
  decide

/-- C7 counterexample: `calc_all_notes` performs no input validation.  On
the input `[-1]` — fewer than 12 base frequencies, and that one non-positive
— it reports no error and returns the (one-entry) table `[-1]`. -/
theorem calc_all_notes_no_validation_cex :
    calcAllNotes [(-1 : ℤ)] = [-1] := by decide

/-- C7 amended: the table builder validates nothing: for every input list of
base frequencies, including lists with fewer than 12 entries or non-positive
entries, it returns the full `|input|²`-entry table `input[p] * 2 ^ i`
rather than reporting any error. -/
theorem calc_all_notes_unvalidated_total :
    ∀ (s : List ℤ),
      (calcAllNotes s).length = s.length * s.length ∧
        ∀ (i p : Fin s.length),
          (calcAllNotes s).getD ((i : ℕ) * s.length + (p : ℕ)) 0 =
            s.getD (p : ℕ) 0 * 2 ^ (i : ℕ) := by
  intro s
  refine ⟨calcAllNotes_length s, fun i p => ?_⟩
  rw [List.getD_eq_getElem?_getD, calcAllNotes_getElem? s i p i.isLt p.isLt]
  rfl

/-- C9 counterexample: the name list built by `chords` has 132 entries while
the frequency table has 144, so the builder does not pair every generated
frequency with a name: the name and frequency lists differ in length. -/
theorem note_names_shorter_than_table :
    noteNames.length = 132 ∧ allNotes.length = 144 ∧
      noteNames.length ≠ allNotes.length := by
  decide

/-- C9 amended: the note names are pairwise distinct and the dict built by
`dict(zip(note_names, all_notes))` pairs each of the 132 names with the
frequency at its own index, but it covers only the first 132 of the 144
generated frequencies: the last octave's 12 entries remain unnamed. -/
theorem notes_dict_truncated_pairing :
    noteNames.Nodup ∧ notesDict.length = 132 ∧ allNotes.length = 144 ∧
      notesDict.map Prod.fst = noteNames ∧
      notesDict.map Prod.snd = allNotes.take 132 := by
  decide

/-- C1: for every root name present in the table (the name at index `j` of
the 132-entry name list) and every list of non-negative intervals whose
resolved positions stay within the 144-entry table, `calc_chord_freqs`
locates the root's 0-based rank `j` in the ascending-frequency table and
returns, for each interval `k` in order, the table entry at `j + k`; in
particular on the single chord `[0]` it returns exactly the root's own
frequency. -/
theorem calc_chord_freqs_positional (j : ℕ) (hj : j < 132) (ks : List ℕ)
    (hks : ∀ k ∈ ks, j + k < 144) :
    lookupName (noteNames.getD j "") notesDict = some (allNotes.getD j 0) ∧
      calcChordFreqsE [ks] (noteNames.getD j "") notesDict allNotes =
        Except.ok [ks.map (fun k => allNotes.getD (j + k) 0)] ∧
      calcChordFreqsE [[0]] (noteNames.getD j "") notesDict allNotes =
        Except.ok [[allNotes.getD j 0]] := by
  have hjn : j < noteNames.length := by rw [noteNames_length]; exact hj
  have hja : j < allNotes.length := by rw [allNotes_length]; omega
  have hlk : lookupName (noteNames.getD j "") notesDict =
      some (allNotes.getD j 0) :=
    lookupName_zip noteNames allNotes j noteNames_nodup hjn hja
  have hfp : findPos (allNotes.getD j 0) allNotes = j :=
    findPos_getD allNotes allNotes_pairwise j hja
  refine ⟨hlk, ?_, ?_⟩
  · rw [calcChordFreqsE_char, hlk]
    simp only
    rw [hfp]
    have hcond : ∀ c ∈ [ks], ∀ k ∈ c, j + k < allNotes.length := by
      intro c hc k hk
      rw [List.mem_singleton] at hc
      subst hc
      rw [allNotes_length]
      exact hks k hk
    rw [if_pos hcond]
    simp
  · rw [calcChordFreqsE_char, hlk]
    simp only
    rw [hfp]
    have hcond : ∀ c ∈ [[0]], ∀ k ∈ c, j + k < allNotes.length := by
      intro c hc k hk
      rw [List.mem_singleton] at hc
      subst hc
      rw [List.mem_singleton] at hk
      subst hk
      rw [allNotes_length]
      omega
    rw [if_pos hcond]
    simp

/-- Witness for C1 at the root `C4` (rank 60) and the major-triad intervals
`[0, 4, 7]`. -/
theorem calc_chord_freqs_positional_witness :
    (60 < 132 ∧ ∀ k ∈ [0, 4, 7], 60 + k < 144) ∧
      (lookupName (noteNames.getD 60 "") notesDict = some (allNotes.getD 60 0) ∧
        calcChordFreqsE [[0, 4, 7]] (noteNames.getD 60 "") notesDict allNotes =
          Except.ok [[0, 4, 7].map (fun k => allNotes.getD (60 + k) 0)] ∧
        calcChordFreqsE [[0]] (noteNames.getD 60 "") notesDict allNotes =
          Except.ok [[allNotes.getD 60 0]]) :=
  ⟨⟨by decide, by decide⟩,
    calc_chord_freqs_positional 60 (by decide) [0, 4, 7] (by decide)⟩

/-- C6: `calc_chord_freqs` fails with the `KeyError`/`unknownRoot` model
exactly when the root name is absent from the dict; it fails with the
`IndexError`/`intervalOutOfRange` model exactly when the root is present and
some interval pushes `root_position + k` beyond the table's last index; in
every other case it succeeds — nothing is truncated or wrapped around. -/
theorem calc_chord_freqs_error_conditions (rt : String) (cis : List (List ℕ)) :
    (calcChordFreqsE cis rt notesDict allNotes =
        Except.error ChordError.unknownRoot ↔
      lookupName rt notesDict = none) ∧
    (calcChordFreqsE cis rt notesDict allNotes =
        Except.error ChordError.intervalOutOfRange ↔
      ∃ f, lookupName rt notesDict = some f ∧
        ∃ c ∈ cis, ∃ k ∈ c, allNotes.length ≤ findPos f allNotes + k) ∧
    ((∃ v, calcChordFreqsE cis rt notesDict allNotes = Except.ok v) ↔
      ∃ f, lookupName rt notesDict = some f ∧
        ∀ c ∈ cis, ∀ k ∈ c, findPos f allNotes + k < allNotes.length) := by
  rw [calcChordFreqsE_char]
  cases hlk : lookupName rt notesDict with
  | none => simp
  | some f =>
    simp only
    by_cases hcond : ∀ c ∈ cis, ∀ k ∈ c, findPos f allNotes + k < allNotes.length
    · rw [if_pos hcond]
      refine ⟨by simp, ?_, by simp; exact hcond⟩
      constructor
      · intro h
        exact absurd h (by simp)
      · rintro ⟨f', hf', c, hc, k, hk, hge⟩
        rw [Option.some.injEq] at hf'
        subst hf'
        exact absurd (hcond c hc k hk) (by omega)
    · rw [if_neg hcond]
      push_neg at hcond
      obtain ⟨c, hc, k, hk, hge⟩ := hcond
      refine ⟨by simp, ?_, ?_⟩
      · simp only [true_iff]
        exact ⟨f, rfl, c, hc, k, hk, hge⟩
      · constructor
        · rintro ⟨v, hv⟩
          exact absurd hv (by simp)
        · rintro ⟨f', hf', hall⟩
          rw [Option.some.injEq] at hf'
          subst hf'
          exact absurd (hall c hc k hk) (by omega)

/-- C5: for every pair of adjacent pitch classes in chromatic order within
one octave of the table built from the program's base frequencies, the ratio
`frequency(next) / frequency(current)` equals `2 ^ (1/12)` within a relative
tolerance of `10⁻⁴`, stated as `|ratio - 2^(1/12)| ≤ 10⁻⁴ * 2^(1/12)` over
`ℝ` (the scaling of the table cancels in the ratio). -/
theorem all_notes_semitone_step :
    ∀ (i : Fin 12) (p : Fin 11),
      |(allNotes.getD (12 * (i : ℕ) + (p : ℕ) + 1) 0 : ℝ) /
            (allNotes.getD (12 * (i : ℕ) + (p : ℕ)) 0 : ℝ) -
          (2 : ℝ) ^ (12 : ℝ)⁻¹| ≤
        1 / 10000 * (2 : ℝ) ^ (12 : ℝ)⁻¹ := by
  intro i p
  have hip : (i : ℕ) < 12 := i.isLt
  have hpp : (p : ℕ) < 11 := p.isLt
  have hidx1 : 12 * (i : ℕ) + (p : ℕ) < 144 := by omega
  have hidx2 : 12 * (i : ℕ) + (p : ℕ) + 1 < 144 := by omega
  have hb := allNotes_entries_pos ⟨12 * (i : ℕ) + (p : ℕ), hidx1⟩
  have hbn := allNotes_entries_pos ⟨12 * (i : ℕ) + (p : ℕ) + 1, hidx2⟩
  obtain ⟨h1, h2⟩ := allNotes_step_bounds i p
  exact step_close_to_semitone _ _ hb hbn h1 h2

/-- C10: for every argument other than `'c'` and `'all'`, `chords` raises no
error and returns no mapping: it falls through both result branches and
yields the Python `None`. -/
theorem chords_other_range_none (rng : String) (h1 : rng ≠ "c")
    (h2 : rng ≠ "all") :
    chords rng = Except.ok none := by
  obtain ⟨cv, hcv⟩ := isOk_exists cChordFrequenciesE (by decide)
  obtain ⟨tv, htv⟩ := isOk_exists tempChordFrequenciesE (by decide)
  unfold chords
  rw [hcv, htv]
  simp only [Except.bind]
  rw [if_neg h1, if_neg h2]

/-- Witness for C10 at the concrete argument `"x"`. -/
theorem chords_other_range_none_witness :
    ("x" ≠ "c" ∧ "x" ≠ "all") ∧ chords "x" = Except.ok none :=
  ⟨⟨by decide, by decide⟩, chords_other_range_none "x" (by decide) (by decide)⟩

/-- C8: the batch resolver applies single-chord resolution once per
(root, chord definition) pair, nesting the definition order inside the root
order — the result is exactly the flat-map over roots of the per-definition
resolutions, with entry `i * |defs| + j` resolved from root `i` and
definition `j` — and zipping against the `'suffixes_first'` name list
attaches to that entry the name `prefix[i] ++ suffix[j]` of the very pair
that produced its frequencies. -/
theorem resolve_all_order (roots : List String) (cis : List (List ℕ))
    (ps ss : List String) (hps : ps.length = roots.length)
    (hss : ss.length = cis.length)
    (h : ∀ r ∈ roots, (lookupName r notesDict).isSome = true ∧
      ∀ c ∈ cis, ∀ k ∈ c,
        findPos ((lookupName r notesDict).getD 0) allNotes + k <
          allNotes.length) :
    ∃ L, resolveAllChords roots cis notesDict allNotes = Except.ok L ∧
      L = roots.flatMap (fun r => cis.map (fun c => c.map (fun k =>
        allNotes.getD
          (findPos ((lookupName r notesDict).getD 0) allNotes + k) 0))) ∧
      L.length = roots.length * cis.length ∧
      ∀ (i : Fin roots.length) (j : Fin cis.length),
        ((combinePrefixSuffix ps ss "suffixes_first").zip
            L)[(i : ℕ) * cis.length + (j : ℕ)]? =
          some (ps.getD (i : ℕ) "" ++ ss.getD (j : ℕ) "",
            (cis.getD (j : ℕ) []).map (fun k =>
              allNotes.getD
                (findPos ((lookupName (roots.getD (i : ℕ) "") notesDict).getD 0)
                  allNotes + k) 0)) := by
  have hok : ∀ r ∈ roots, calcChordFreqsE cis r notesDict allNotes =
      Except.ok (cis.map (fun c => c.map (fun k =>
        allNotes.getD
          (findPos ((lookupName r notesDict).getD 0) allNotes + k) 0))) := by
    intro r hr
    obtain ⟨hsome, hbnd⟩ := h r hr
    obtain ⟨f, hf⟩ := Option.isSome_iff_exists.mp hsome
    have hgetD : (lookupName r notesDict).getD 0 = f := by rw [hf]; rfl
    rw [hgetD] at hbnd
    rw [calcChordFreqsE_char, hf]
    simp only
    rw [if_pos hbnd]
    simp
  have hmapM := exceptMapList_ok_of roots
    (fun r => calcChordFreqsE cis r notesDict allNotes)
    (fun r => cis.map (fun c => c.map (fun k =>
      allNotes.getD
        (findPos ((lookupName r notesDict).getD 0) allNotes + k) 0))) hok
  have hlens : ∀ l ∈ roots.map (fun r => cis.map (fun c => c.map (fun k =>
      allNotes.getD
        (findPos ((lookupName r notesDict).getD 0) allNotes + k) 0))),
      l.length = cis.length := by
    intro l hl
    obtain ⟨r, _, rfl⟩ := List.mem_map.mp hl
    simp
  refine ⟨(roots.map (fun r => cis.map (fun c => c.map (fun k =>
      allNotes.getD
        (findPos ((lookupName r notesDict).getD 0) allNotes + k) 0)))).flatten,
    ?_, ?_, ?_, ?_⟩
  · unfold resolveAllChords
    rw [hmapM]
    rfl
  · rw [List.flatMap_def]
  · rw [flatten_length_const _ cis.length hlens, List.length_map]
  · intro i j
    have hiL : (i : ℕ) < (roots.map (fun r => cis.map (fun c => c.map (fun k =>
        allNotes.getD
          (findPos ((lookupName r notesDict).getD 0) allNotes + k) 0)))).length := by
      rw [List.length_map]
      exact i.isLt
    have hname : (combinePrefixSuffix ps ss
        "suffixes_first")[(i : ℕ) * cis.length + (j : ℕ)]? =
        some (ps.getD (i : ℕ) "" ++ ss.getD (j : ℕ) "") := by
      have hcomb := combine_suffixesFirst_getElem? ps ss i j
        (by rw [hps]; exact i.isLt) (by rw [hss]; exact j.isLt)
      rw [hss] at hcomb
      exact hcomb
    have hL : ((roots.map (fun r => cis.map (fun c => c.map (fun k =>
        allNotes.getD
          (findPos ((lookupName r notesDict).getD 0) allNotes + k)
          0)))).flatten)[(i : ℕ) * cis.length + (j : ℕ)]? =
        some ((cis.getD (j : ℕ) []).map (fun k =>
          allNotes.getD
            (findPos ((lookupName (roots.getD (i : ℕ) "") notesDict).getD 0)
              allNotes + k) 0)) := by
      rw [flatten_getElem? _ cis.length hlens i j hiL j.isLt]
      rw [List.getD_eq_getElem _ [] hiL, List.getElem_map]
      rw [List.getElem?_map, List.getElem?_eq_getElem j.isLt]
      rw [List.getD_eq_getElem cis [] j.isLt,
        List.getD_eq_getElem roots "" i.isLt]
      rfl
    rw [List.getElem?_zip_eq_some]
    exact ⟨hname, hL⟩

/-- Witness for C8 on the spec's example shape: roots `["C4", "D4"]` with the
major and minor triad definitions, named by prefixes `["C", "D"]` and
suffixes `["maj", "min"]`. -/
theorem resolve_all_order_witness :
    ((["C", "D"] : List String).length = (["C4", "D4"] : List String).length ∧
      (["maj", "min"] : List String).length =
        ([[0, 4, 7], [0, 3, 7]] : List (List ℕ)).length ∧
      ∀ r ∈ (["C4", "D4"] : List String),
        (lookupName r notesDict).isSome = true ∧
        ∀ c ∈ ([[0, 4, 7], [0, 3, 7]] : List (List ℕ)), ∀ k ∈ c,
          findPos ((lookupName r notesDict).getD 0) allNotes + k <
            allNotes.length) ∧
    (∃ L, resolveAllChords ["C4", "D4"] [[0, 4, 7], [0, 3, 7]]
          notesDict allNotes = Except.ok L ∧
      L = (["C4", "D4"] : List String).flatMap (fun r =>
        ([[0, 4, 7], [0, 3, 7]] : List (List ℕ)).map (fun c => c.map (fun k =>
          allNotes.getD
            (findPos ((lookupName r notesDict).getD 0) allNotes + k) 0))) ∧
      L.length = (["C4", "D4"] : List String).length *
        ([[0, 4, 7], [0, 3, 7]] : List (List ℕ)).length ∧
      ∀ (i : Fin (["C4", "D4"] : List String).length)
        (j : Fin ([[0, 4, 7], [0, 3, 7]] : List (List ℕ)).length),
        ((combinePrefixSuffix ["C", "D"] ["maj", "min"] "suffixes_first").zip
            L)[(i : ℕ) * ([[0, 4, 7], [0, 3, 7]] : List (List ℕ)).length +
              (j : ℕ)]? =
          some ((["C", "D"] : List String).getD (i : ℕ) "" ++
              (["maj", "min"] : List String).getD (j : ℕ) "",
            (([[0, 4, 7], [0, 3, 7]] : List (List ℕ)).getD (j : ℕ) []).map
              (fun k => allNotes.getD
                (findPos
                  ((lookupName ((["C4", "D4"] : List String).getD (i : ℕ) "")
                    notesDict).getD 0) allNotes + k) 0))) :=
  ⟨⟨by decide, by decide, by decide⟩,
    resolve_all_order ["C4", "D4"] [[0, 4, 7], [0, 3, 7]] ["C", "D"]
      ["maj", "min"] (by decide) (by decide) (by decide)⟩

end MusicPlots
